/-
Verification of the histogram-equalization pipeline of
ZakDH/CMP3751M-Parallel-Programming ("Tutorial 2").

The host program (`src/Tutorial 2/Tutorial 2.cpp`) drives a four-stage
OpenCL pipeline: histogram build (`int_hist`), inclusive scan
(`cum_hist`), normalization (`norm_hist`) and back-projection
(`back_project`).  The kernel source (`kernels/my_kernels.cl`) is not
part of the available sources, so the four kernels are modelled from the
specification; the host control flow, buffer/event handling and
profiling printout are embedded from the C++ source.
-/
import Mathlib

namespace Tutorial2

/-! ## Kernel-side definitions (modelled from the spec) -/

/-- One atomic fetch-and-increment on bin `v` of histogram `h`
(`atomic_inc(&H[image[id]])`).  Modelled from the spec: §4.1, each work
unit "reads its pixel's intensity and performs an atomic
fetch-and-increment on histogram[intensity]"; the kernel source
`kernels/my_kernels.cl` is missing from the sources. -/
def bump (h : List Nat) (v : Nat) : List Nat :=
  h.set v (h.getD v 0 + 1)

/-- The `int_hist` kernel serialized: the device executes one atomic
increment per pixel; `order` is the order in which the scheduler happens
to process the pixels (any permutation of the image).  Modelled from the
spec: §4.1; the kernel source is missing from the sources. -/
def int_hist_sched (order : List Nat) (B : Nat) : List Nat :=
  order.foldl bump (List.replicate B 0)

/-- The `int_hist` kernel's result on an image with `B` bins (the
scheduling order does not matter, see `int_hist_sched_perm`).
Modelled from the spec: §4.1; the kernel source is missing. -/
def int_hist (image : List Nat) (B : Nat) : List Nat :=
  int_hist_sched image B

/-- One Hillis-Steele scan step at stride `d`: every position `i ≥ d`
adds the value at `i - d` from the previous step's buffer, positions
`i < d` are copied unchanged.  Reading only the previous buffer and
writing a fresh one is exactly the double-buffered (ping-pong)
discipline of §4.2.  Modelled from the spec: §4.2; the kernel source
`kernels/my_kernels.cl` is missing from the sources. -/
def hsStep (h : List Nat) (d : Nat) : List Nat :=
  (List.range h.length).map
    (fun i => if d ≤ i then h.getD i 0 + h.getD (i - d) 0 else h.getD i 0)

/-- `k` synchronized Hillis-Steele steps with strides `1, 2, 4, …,
2^(k-1)`, a barrier between consecutive steps. -/
def hsRun (h : List Nat) : Nat → List Nat
  | 0 => h
  | k + 1 => hsStep (hsRun h k) (2 ^ k)

/-- The `cum_hist` kernel: the full scan.  The spec runs `ceil(log2 B)`
steps; we run `B` steps, which is the same result because every step
whose stride is `≥ B` leaves all `B` positions unchanged
(`hsStep_of_length_le`).  Modelled from the spec: §4.2; the kernel
source is missing. -/
def cum_hist (h : List Nat) : List Nat :=
  hsRun h h.length

/-- The `norm_hist` kernel: `table[i] = floor(cumulative[i] * B / N)`
clamped to `[0, 255]`.  Modelled from the spec: §4.3 ("`table[i] =
round_down(cumulative[i] / (N / B))` or equivalently `table[i] =
floor(cumulative[i] * B / N)`, clamped to `[0, 255]`"); the kernel
source is missing. -/
def norm_hist (cum : List Nat) (N B : Nat) : List Nat :=
  cum.map (fun c => min (c * B / N) 255)

/-- The `back_project` kernel: `output[p] = table[input[p]]` for every
pixel `p`.  Modelled from the spec: §4.4; the kernel source is
missing. -/
def back_project (input table : List Nat) : List Nat :=
  input.map (fun p => table.getD p 0)

/-- Device-side buffers visible to the back-projection stage. -/
structure DeviceState where
  input : List Nat
  table : List Nat
  output : List Nat
deriving DecidableEq, Repr

/-- The back-projection dispatch as a transformation of the device
buffers: it writes the output buffer and touches nothing else. -/
def backProjectStage (s : DeviceState) : DeviceState :=
  { s with output := back_project s.input s.table }

/-- The whole pipeline, parametrized by the scheduler-chosen processing
`order` of the histogram stage's atomic increments (a permutation of the
image).  Returns (frequency histogram, cumulative histogram, lookup
table, output image), mirroring the host's four read-backs. -/
def pipelineRun (image order : List Nat) (B : Nat) :
    List Nat × List Nat × List Nat × List Nat :=
  let hist := int_hist_sched order B
  let cum := cum_hist hist
  let table := norm_hist cum image.length B
  let output := back_project image table
  (hist, cum, table, output)

/-! ## Histogram-stage lemmas -/

lemma getD_set_self (h : List Nat) (v x : Nat) (hv : v < h.length) :
    (h.set v x).getD v 0 = x := by
  rw [List.getD_eq_getElem?_getD, List.getElem?_set_self', List.getElem?_eq_getElem hv]
  rfl

lemma getD_set_ne (h : List Nat) (u v x : Nat) (huv : u ≠ v) :
    (h.set u x).getD v 0 = h.getD v 0 := by
  rw [List.getD_eq_getElem?_getD, List.getElem?_set_ne huv, ← List.getD_eq_getElem?_getD]

lemma length_bump (h : List Nat) (v : Nat) : (bump h v).length = h.length :=
  List.length_set ..

lemma bump_comm (h : List Nat) (a b : Nat) : bump (bump h a) b = bump (bump h b) a := by
  rcases eq_or_ne a b with rfl | hab
  · rfl
  · unfold bump
    rw [getD_set_ne h a b _ hab, getD_set_ne h b a _ hab.symm,
      List.set_comm _ _ _ hab]

instance : RightCommutative bump := ⟨bump_comm⟩

lemma sum_set_succ (h : List Nat) (v : Nat) (hv : v < h.length) :
    (h.set v (h.getD v 0 + 1)).sum = h.sum + 1 := by
  induction h generalizing v with
  | nil => simp at hv
  | cons x t ih =>
    cases v with
    | zero => simp [List.getD]; omega
    | succ v =>
      have hv' : v < t.length := by simpa using hv
      simp only [List.set, List.getD_cons_succ, List.sum_cons, ih v hv']
      omega

lemma sum_bump (h : List Nat) (v : Nat) (hv : v < h.length) :
    (bump h v).sum = h.sum + 1 :=
  sum_set_succ h v hv

lemma length_foldl_bump (l : List Nat) (h : List Nat) :
    (l.foldl bump h).length = h.length := by
  induction l generalizing h with
  | nil => rfl
  | cons p t ih => simp [List.foldl_cons, ih, length_bump]

lemma getD_foldl_bump (l : List Nat) (h : List Nat) (v : Nat) (hv : v < h.length) :
    (l.foldl bump h).getD v 0 = h.getD v 0 + l.count v := by
  induction l generalizing h with
  | nil => simp
  | cons p t ih =>
    have hv' : v < (bump h p).length := by rwa [length_bump]
    rw [List.foldl_cons, ih (bump h p) hv', List.count_cons]
    rcases eq_or_ne p v with rfl | hpv
    · rw [bump, getD_set_self h p _ hv]
      simp [Nat.add_assoc, Nat.add_comm]
    · rw [bump, getD_set_ne h p v _ hpv]
      simp [hpv]

lemma sum_foldl_bump (l : List Nat) (h : List Nat) (hb : ∀ p ∈ l, p < h.length) :
    (l.foldl bump h).sum = h.sum + l.length := by
  induction l generalizing h with
  | nil => rfl
  | cons p t ih =>
    have hp : p < h.length := hb p (List.mem_cons_self p t)
    have hb' : ∀ q ∈ t, q < (bump h p).length := by
      intro q hq; rw [length_bump]; exact hb q (List.mem_cons_of_mem p hq)
    rw [List.foldl_cons, ih (bump h p) hb', sum_bump h p hp]
    simp [List.length_cons]
    omega

lemma length_int_hist (image : List Nat) (B : Nat) : (int_hist image B).length = B := by
  rw [int_hist, int_hist_sched, length_foldl_bump, List.length_replicate]

lemma getD_int_hist (image : List Nat) (B : Nat) (v : Nat) (hv : v < B) :
    (int_hist image B).getD v 0 = image.count v := by
  rw [int_hist, int_hist_sched, getD_foldl_bump image _ v (by simpa using hv)]
  simp [List.getD_eq_getElem?_getD, List.getElem?_replicate, hv]

lemma sum_int_hist (image : List Nat) (B : Nat) (hpix : ∀ p ∈ image, p < B) :
    (int_hist image B).sum = image.length := by
  rw [int_hist, int_hist_sched,
    sum_foldl_bump image _ (by simpa using hpix)]
  simp

lemma int_hist_sched_perm (order₁ order₂ : List Nat) (B : Nat)
    (hp : order₁.Perm order₂) : int_hist_sched order₁ B = int_hist_sched order₂ B :=
  hp.foldl_eq _

/-! ## Scan-stage lemmas -/

lemma length_hsStep (h : List Nat) (d : Nat) : (hsStep h d).length = h.length := by
  simp [hsStep]

lemma getD_hsStep (h : List Nat) (d i : Nat) (hi : i < h.length) :
    (hsStep h d).getD i 0 =
      if d ≤ i then h.getD i 0 + h.getD (i - d) 0 else h.getD i 0 := by
  have hlen : i < (hsStep h d).length := by rwa [length_hsStep]
  rw [List.getD_eq_getElem _ _ hlen]
  simp [hsStep, List.getElem_map, List.getElem_range]

/-- A scan step whose stride covers the whole buffer changes nothing:
this is why running extra steps beyond `ceil(log2 B)` is harmless. -/
lemma hsStep_of_length_le (h : List Nat) (d : Nat) (hd : h.length ≤ d) :
    hsStep h d = h := by
  apply List.ext_getElem (by simp [length_hsStep])
  intro i h1 h2
  have hstep := getD_hsStep h d i h2
  rw [if_neg (by omega)] at hstep
  rw [← List.getD_eq_getElem _ 0 h1, hstep, List.getD_eq_getElem _ 0 h2]

lemma length_hsRun (h : List Nat) (k : Nat) : (hsRun h k).length = h.length := by
  induction k with
  | zero => rfl
  | succ k ih => rw [hsRun, length_hsStep, ih]

/-- Invariant of the Hillis-Steele scan: after `k` barrier-synchronized
steps, position `i` holds the sum of the window of (at most) `2^k`
inputs ending at `i`. -/
lemma getD_hsRun (h : List Nat) (k i : Nat) (hi : i < h.length) :
    (hsRun h k).getD i 0 = ∑ j ∈ Finset.Ico (i + 1 - 2 ^ k) (i + 1), h.getD j 0 := by
  induction k generalizing i with
  | zero =>
    simp only [hsRun, pow_zero, Nat.add_sub_cancel]
    rw [Finset.sum_Ico_eq_sum_range]
    simp
  | succ k ih =>
    have hp : 2 ^ (k + 1) = 2 ^ k + 2 ^ k := by rw [pow_succ]; omega
    rw [hsRun, getD_hsStep _ _ _ (by rwa [length_hsRun])]
    by_cases hd : 2 ^ k ≤ i
    · rw [if_pos hd, ih i hi, ih (i - 2 ^ k) (lt_of_le_of_lt (Nat.sub_le _ _) hi)]
      have e1 : i - 2 ^ k + 1 = i + 1 - 2 ^ k := by omega
      have e2 : i + 1 - 2 ^ k - 2 ^ k = i + 1 - 2 ^ (k + 1) := by omega
      have m1 : i + 1 - 2 ^ (k + 1) ≤ i + 1 - 2 ^ k :=
        Nat.sub_le_sub_left (Nat.pow_le_pow_right (by norm_num) (Nat.le_succ k)) _
      have m2 : i + 1 - 2 ^ k ≤ i + 1 := Nat.sub_le _ _
      rw [e1, e2, Nat.add_comm, Finset.sum_Ico_consecutive _ m1 m2]
    · rw [if_neg hd, ih i hi]
      have h1 : i + 1 - 2 ^ k = 0 := by omega
      have h2 : i + 1 - 2 ^ (k + 1) = 0 := by omega
      rw [h1, h2]

lemma take_sum_eq (h : List Nat) (n : Nat) (hn : n ≤ h.length) :
    (h.take n).sum = ∑ j ∈ Finset.range n, h.getD j 0 := by
  induction n with
  | zero => simp
  | succ n ih =>
    have hn' : n < h.length := by omega
    rw [List.sum_take_succ h n hn', ih (le_of_lt hn'), Finset.sum_range_succ,
      List.getD_eq_getElem _ 0 hn']

lemma getD_cum_hist (h : List Nat) (i : Nat) (hi : i < h.length) :
    (cum_hist h).getD i 0 = (h.take (i + 1)).sum := by
  rw [cum_hist, getD_hsRun h h.length i hi, take_sum_eq h (i + 1) (by omega)]
  have hpow := Nat.lt_two_pow h.length
  have h0 : i + 1 - 2 ^ h.length = 0 := by omega
  rw [h0, ← Finset.range_eq_Ico]

lemma length_cum_hist (h : List Nat) : (cum_hist h).length = h.length :=
  length_hsRun h h.length

lemma cum_hist_mono (h : List Nat) (i j : Nat) (hij : i ≤ j) (hj : j < h.length) :
    (cum_hist h).getD i 0 ≤ (cum_hist h).getD j 0 := by
  rw [getD_cum_hist h i (lt_of_le_of_lt hij hj), getD_cum_hist h j hj,
    take_sum_eq h (i + 1) (by omega), take_sum_eq h (j + 1) (by omega)]
  exact Finset.sum_le_sum_of_subset (Finset.range_subset.mpr (by omega))

lemma cum_hist_last (h : List Nat) (hpos : 0 < h.length) :
    (cum_hist h).getD (h.length - 1) 0 = h.sum := by
  rw [getD_cum_hist h _ (by omega), Nat.sub_add_cancel hpos, List.take_length]

/-! ## Normalizer and back-projection lemmas -/

lemma length_norm_hist (cum : List Nat) (N B : Nat) :
    (norm_hist cum N B).length = cum.length := by simp [norm_hist]

lemma getD_norm_hist (cum : List Nat) (N B i : Nat) (hi : i < cum.length) :
    (norm_hist cum N B).getD i 0 = min (cum.getD i 0 * B / N) 255 := by
  have hl : i < (norm_hist cum N B).length := by rwa [length_norm_hist]
  rw [List.getD_eq_getElem _ _ hl, List.getD_eq_getElem _ _ hi]
  simp [norm_hist]

lemma length_back_project (input table : List Nat) :
    (back_project input table).length = input.length := by simp [back_project]

lemma getD_back_project (input table : List Nat) (p : Nat) (hp : p < input.length) :
    (back_project input table).getD p 0 = table.getD (input.getD p 0) 0 := by
  have hl : p < (back_project input table).length := by rwa [length_back_project]
  rw [List.getD_eq_getElem _ _ hl, List.getD_eq_getElem _ _ hp]
  simp [back_project]

/-! ## Host-side embedding (`src/Tutorial 2/Tutorial 2.cpp`)

The host reads the bin count from stdin, loads the image (CImg throws on
a missing/corrupt file), constructs `std::vector<int> H(bin_count)` (a
negative count makes the vector constructor throw an uncaught standard
exception), builds the program, performs four blocking writes of the
input image, then dispatch/read-back pairs for the four kernels, and
finally constructs and displays the output image.  `cl::Error` and
`CImgException` are the only exceptions caught; the handler prints an
`ERROR:` diagnostic.  Device-side success or failure of each operation
is an oracle parameter `devFail`. -/

inductive KernelName
  | int_hist
  | cum_hist
  | norm_hist
  | back_project
deriving DecidableEq, Repr

/-- The fallible device operations of a run, in program order. -/
inductive DeviceOp
  | build
  | writeInput (i : Nat)
  | dispatch (k : KernelName)
  | readBack (k : KernelName)
deriving DecidableEq, Repr

/-- The device operations the host issues, in program order: build the
program, write the input image four times, then for each kernel an
enqueue followed by a blocking read of its result buffer. -/
def opSeq : List DeviceOp :=
  [.build,
   .writeInput 0, .writeInput 1, .writeInput 2, .writeInput 3,
   .dispatch .int_hist, .readBack .int_hist,
   .dispatch .cum_hist, .readBack .cum_hist,
   .dispatch .norm_hist, .readBack .norm_hist,
   .dispatch .back_project, .readBack .back_project]

/-- User-visible happenings of a run. -/
inductive HostEvent
  | readBinCount
  | imageLoaded
  | deviceOp (op : DeviceOp)
  | printedDiagnostic
  | displayedOutput
deriving DecidableEq, Repr

/-- Outcome of a run. -/
inductive RunResult
  | success (output : List Nat)
  | errorReported
  | crashedUncaught
deriving DecidableEq, Repr

structure RunOutcome where
  events : List HostEvent
  result : RunResult
deriving DecidableEq, Repr

/-- Events of a run that completes every device operation. -/
def successEvents : List HostEvent :=
  [.readBinCount, .imageLoaded] ++ opSeq.map .deviceOp ++ [.displayedOutput]

/-- Events of a run whose first failing device operation throws
`cl::Error`: the operations before it complete, then the catch handler
prints the diagnostic. -/
def failEvents (devFail : DeviceOp → Bool) : List HostEvent :=
  [.readBinCount, .imageLoaded] ++
    (opSeq.takeWhile (fun op => !devFail op)).map .deviceOp ++ [.printedDiagnostic]

/-- The host `main` (lines 56-190 of `Tutorial 2.cpp`): no validation of
the bin count or the image size is performed anywhere.  `load = none`
models a CImg load failure (caught, diagnostic printed); a negative bin
count crashes on `std::vector<int> H(bin_count)` with an exception no
handler catches; otherwise the device operations run in order and the
pipeline result is read back and displayed. -/
def hostRun (binCount : Int) (load : Option (List Nat)) (devFail : DeviceOp → Bool) :
    RunOutcome :=
  match load with
  | none => ⟨[.readBinCount, .printedDiagnostic], .errorReported⟩
  | some image =>
    if binCount < 0 then
      ⟨[.readBinCount, .imageLoaded], .crashedUncaught⟩
    else if opSeq.any devFail then
      ⟨failEvents devFail, .errorReported⟩
    else
      ⟨successEvents, .success (pipelineRun image image binCount.toNat).2.2.2⟩

/-- A device oracle in which every operation succeeds. -/
def noFail : DeviceOp → Bool := fun _ => false

/-- A device oracle in which program build fails. -/
def failBuild : DeviceOp → Bool := fun op => decide (op = DeviceOp.build)

/-! ### Profiling-event embedding (lines 106-174)

The host declares `cl::Event event, eventB, eventC, eventD`.  Each
enqueue passes a pointer to one of them; the list below records, in
program order, which variable each enqueue writes (the read-backs pass
no event).  The profiling printout then queries only `event`. -/

inductive EvVar
  | ev
  | evB
  | evC
  | evD
deriving DecidableEq, Repr

/-- (variable, operation) per enqueue carrying an event pointer, in
program order: the four input writes use `event`, `eventB`, `eventC`,
`eventD`; all four kernel enqueues reuse `event`. -/
def eventAssignments : List (EvVar × DeviceOp) :=
  [(.ev, .writeInput 0), (.evB, .writeInput 1), (.evC, .writeInput 2), (.evD, .writeInput 3),
   (.ev, .dispatch .int_hist), (.ev, .dispatch .cum_hist),
   (.ev, .dispatch .norm_hist), (.ev, .dispatch .back_project)]

/-- The operation whose profiling data an event variable holds when the
printout runs: the last operation assigned to it. -/
def finalEventOp (v : EvVar) : Option DeviceOp :=
  ((eventAssignments.filter (fun a => decide (a.1 = v))).map Prod.snd).getLast?

/-- The event variables queried by the three profiling printouts
(kernel time, memory transfer, full profiling info): all three query
`event` only. -/
def queriedEventVars : List EvVar := [.ev, .ev, .ev]

/-- `"Kernel execution time [ns]"`: `END - START` of whatever operation
`event` last recorded, where `dur` gives each operation's duration. -/
def printedKernelTime (dur : DeviceOp → Nat) : Nat :=
  (finalEventOp .ev).elim 0 dur

/-- `"Memory transfer"`: the source sums `END - START` of the same
`event` four times. -/
def printedMemTransfer (dur : DeviceOp → Nat) : Nat :=
  (finalEventOp .ev).elim 0 dur + (finalEventOp .ev).elim 0 dur +
    (finalEventOp .ev).elim 0 dur + (finalEventOp .ev).elim 0 dur

/-! ## Claim theorems -/

/-- C1: for every frequency histogram of length `B`, the scan stage
(`cum_hist` kernel) produces the inclusive cumulative histogram —
`cumulative[i] = sum(histogram[0..i])` for every `i < B` — hence the
cumulative histogram is non-decreasing, its last entry is the histogram
total, and when the histogram is the frequency histogram of an image
whose intensities fit in `B` bins that total is the image pixel
count. -/
theorem C1_cum_hist_inclusive_scan (h : List Nat) (B : Nat)
    (hB : h.length = B) (hBpos : 0 < B) :
    (∀ i, i < B → (cum_hist h).getD i 0 = (h.take (i + 1)).sum) ∧
    (∀ i j, i ≤ j → j < B → (cum_hist h).getD i 0 ≤ (cum_hist h).getD j 0) ∧
    (cum_hist h).getD (B - 1) 0 = h.sum ∧
    (∀ image, h = int_hist image B → (∀ p ∈ image, p < B) →
      (cum_hist h).getD (B - 1) 0 = image.length) := by
  subst hB
  refine ⟨fun i hi => getD_cum_hist h i hi,
          fun i j hij hj => cum_hist_mono h i j hij hj,
          cum_hist_last h hBpos,
          fun image him hpix => ?_⟩
  rw [cum_hist_last h hBpos, him, sum_int_hist image _ hpix]

theorem C1_witness :
    (cum_hist [2, 2, 2, 2]).getD 2 0 = ([2, 2, 2, 2].take 3).sum ∧
    (cum_hist [2, 2, 2, 2]).getD 3 0 = [2, 2, 2, 2].sum :=
  ⟨(C1_cum_hist_inclusive_scan [2, 2, 2, 2] 4 rfl (by decide)).1 2 (by decide),
   (C1_cum_hist_inclusive_scan [2, 2, 2, 2] 4 rfl (by decide)).2.2.1⟩

/-- C2: for every image of size `N` whose intensities fit in the chosen
`B` bins, the histogram build stage (`int_hist` kernel) produces a
length-`B` frequency histogram in which `histogram[v]` is the number of
pixels with intensity `v`, so the bins sum to `N`. -/
theorem C2_int_hist_frequency (image : List Nat) (B : Nat)
    (hpix : ∀ p ∈ image, p < B) :
    (int_hist image B).length = B ∧
    (∀ v, v < B → (int_hist image B).getD v 0 = image.count v) ∧
    (int_hist image B).sum = image.length :=
  ⟨length_int_hist image B, fun v hv => getD_int_hist image B v hv,
   sum_int_hist image B hpix⟩

theorem C2_witness :
    (int_hist [0, 0, 1, 1, 2, 2, 3, 3] 4).sum = 8 ∧
    (int_hist [0, 0, 1, 1, 2, 2, 3, 3] 4).getD 1 0 = 2 :=
  ⟨((C2_int_hist_frequency [0, 0, 1, 1, 2, 2, 3, 3] 4 (by decide)).2.2).trans (by decide),
   ((C2_int_hist_frequency [0, 0, 1, 1, 2, 2, 3, 3] 4 (by decide)).2.1 1 (by decide)).trans
     (by decide)⟩

/-- C3: for every cumulative histogram, pixel count `N > 0` and bin
count `B`, the normalize stage (`norm_hist` kernel) produces a lookup
table of the same length with `table[i] = floor(cumulative[i] * B / N)`
clamped to `[0, 255]`; when the cumulative histogram is non-decreasing
the table is non-decreasing, and every entry is at most `255`. -/
theorem C3_norm_hist_table (cum : List Nat) (N B : Nat) (_hN : 0 < N)
    (hmono : ∀ i ∈ List.range cum.length, ∀ j ∈ List.range cum.length,
      i ≤ j → cum.getD i 0 ≤ cum.getD j 0) :
    (norm_hist cum N B).length = cum.length ∧
    (∀ i, i < cum.length →
      (norm_hist cum N B).getD i 0 = min (cum.getD i 0 * B / N) 255 ∧
      (norm_hist cum N B).getD i 0 ≤ 255) ∧
    (∀ i j, i ≤ j → j < cum.length →
      (norm_hist cum N B).getD i 0 ≤ (norm_hist cum N B).getD j 0) := by
  refine ⟨length_norm_hist cum N B,
          fun i hi => ⟨getD_norm_hist cum N B i hi, ?_⟩,
          fun i j hij hj => ?_⟩
  · rw [getD_norm_hist cum N B i hi]
    exact min_le_right _ _
  · rw [getD_norm_hist cum N B i (lt_of_le_of_lt hij hj), getD_norm_hist cum N B j hj]
    have hc : cum.getD i 0 ≤ cum.getD j 0 :=
      hmono i (List.mem_range.mpr (lt_of_le_of_lt hij hj)) j (List.mem_range.mpr hj) hij
    have : cum.getD i 0 * B / N ≤ cum.getD j 0 * B / N :=
      Nat.div_le_div_right (Nat.mul_le_mul_right B hc)
    exact min_le_min this (le_refl 255)

theorem C3_witness :
    (norm_hist [2, 4, 6, 8] 8 4).getD 0 0 = min (([2, 4, 6, 8] : List Nat).getD 0 0 * 4 / 8) 255 ∧
    (norm_hist [2, 4, 6, 8] 8 4).getD 1 0 ≤ (norm_hist [2, 4, 6, 8] 8 4).getD 3 0 :=
  ⟨((C3_norm_hist_table [2, 4, 6, 8] 8 4 (by decide) (by decide)).2.1 0 (by decide)).1,
   (C3_norm_hist_table [2, 4, 6, 8] 8 4 (by decide) (by decide)).2.2 1 3 (by decide) (by decide)⟩

/-- C4: the back-projection stage (`back_project` kernel) writes an
output buffer of the same length as the input in which
`output[p] = table[input[p]]` for every pixel `p`, and it leaves the
input buffer and the lookup table unmodified. -/
theorem C4_back_project_stage (s : DeviceState) :
    (backProjectStage s).output.length = s.input.length ∧
    (∀ p, p < s.input.length →
      (backProjectStage s).output.getD p 0 = s.table.getD (s.input.getD p 0) 0) ∧
    (backProjectStage s).input = s.input ∧
    (backProjectStage s).table = s.table :=
  ⟨length_back_project _ _, fun p hp => getD_back_project _ _ p hp, rfl, rfl⟩

theorem C4_witness :
    (backProjectStage ⟨[1, 0], [7, 9], []⟩).output.getD 0 0 =
      ([7, 9] : List Nat).getD (([1, 0] : List Nat).getD 0 0) 0 ∧
    (backProjectStage ⟨[1, 0], [7, 9], []⟩).input = [1, 0] :=
  ⟨(C4_back_project_stage ⟨[1, 0], [7, 9], []⟩).2.1 0 (by decide),
   (C4_back_project_stage ⟨[1, 0], [7, 9], []⟩).2.2.1⟩

/-- C5: on the 8-pixel image `[0,0,1,1,2,2,3,3]` with `B = 4` bins the
pipeline produces frequency histogram `[2,2,2,2]`, cumulative histogram
`[2,4,6,8]`, lookup table `[1,2,3,4]` and the back-projected output
image `[1,1,2,2,3,3,4,4]`. -/
theorem C5_scenario_pipeline :
    pipelineRun [0, 0, 1, 1, 2, 2, 3, 3] [0, 0, 1, 1, 2, 2, 3, 3] 4 =
      ([2, 2, 2, 2], [2, 4, 6, 8], [1, 2, 3, 4], [1, 1, 2, 2, 3, 3, 4, 4]) := by
  decide

/-- C6: the final values of all four buffers are deterministic functions
of the image and bin count: whatever order the scheduler processes the
histogram stage's atomic increments in (any permutation of the image),
the pipeline result is identical — so two runs on the same inputs yield
byte-identical outputs. -/
theorem C6_pipeline_deterministic (image order₁ order₂ : List Nat) (B : Nat)
    (h₁ : order₁.Perm image) (h₂ : order₂.Perm image) :
    pipelineRun image order₁ B = pipelineRun image order₂ B := by
  have hh : int_hist_sched order₁ B = int_hist_sched order₂ B :=
    int_hist_sched_perm _ _ B (h₁.trans h₂.symm)
  simp only [pipelineRun, hh]

theorem C6_witness :
    pipelineRun [0, 1, 1] [1, 0, 1] 2 = pipelineRun [0, 1, 1] [1, 1, 0] 2 :=
  C6_pipeline_deterministic [0, 1, 1] [1, 0, 1] [1, 1, 0] 2 (by decide) (by decide)

/-- C7 counterexample: with a successfully loaded zero-sized image
(`N = 0`) and bin count 256, the program raises no error at all before
dispatch: it dispatches all four kernels — reaching the normalizer with
`N = 0` — and completes, refuting the claim that a
`ConfigurationError`/`InputError` precedes any device dispatch. -/
theorem C7_counterexample :
    HostEvent.deviceOp (.dispatch .int_hist) ∈ (hostRun 256 (some []) noFail).events ∧
    HostEvent.deviceOp (.dispatch .norm_hist) ∈ (hostRun 256 (some []) noFail).events ∧
    HostEvent.printedDiagnostic ∉ (hostRun 256 (some []) noFail).events ∧
    (hostRun 256 (some []) noFail).result = .success [] := by
  decide

/-- C7 amended: the host performs no `N == 0` validation.  A failed
image load (missing/corrupt file) does abort before any device
operation, with a diagnostic; but a successfully loaded zero-sized
image proceeds through every device operation, normalizer dispatch
included, and completes without any error being raised. -/
theorem C7_amended_no_empty_check (b : Int) (devFail : DeviceOp → Bool) :
    hostRun b none devFail =
      ⟨[.readBinCount, .printedDiagnostic], .errorReported⟩ ∧
    (∀ e ∈ (hostRun b none devFail).events, ∀ op, e ≠ HostEvent.deviceOp op) ∧
    (hostRun 256 (some []) noFail).result = .success [] ∧
    (∀ op ∈ opSeq, HostEvent.deviceOp op ∈ (hostRun 256 (some []) noFail).events) := by
  refine ⟨rfl, ?_, by decide, by decide⟩
  intro e he op
  simp only [hostRun, List.mem_cons, List.not_mem_nil, or_false] at he
  rcases he with rfl | rfl <;> simp

/-- C8 counterexample: the out-of-range bin count 300 (> 256) is
accepted: with a valid two-pixel image the run dispatches the kernels
and never prints a diagnostic, refuting the claimed rejection with a
`ConfigurationError` before dispatch. -/
theorem C8_counterexample :
    HostEvent.deviceOp (.dispatch .int_hist) ∈ (hostRun 300 (some [0, 0]) noFail).events ∧
    HostEvent.printedDiagnostic ∉ (hostRun 300 (some [0, 0]) noFail).events := by
  decide

/-- C8 amended: the program performs no bin-count validation: every
non-negative bin count (including values above 256) is accepted and the
kernels are dispatched with no diagnostic, while a negative bin count
crashes with an uncaught exception from `std::vector<int> H(bin_count)`
rather than a clean `ConfigurationError` rejection. -/
theorem C8_amended_no_bin_check (b : Int) (image : List Nat) (devFail : DeviceOp → Bool) :
    (0 ≤ b →
      HostEvent.deviceOp (.dispatch .int_hist) ∈ (hostRun b (some image) noFail).events ∧
      HostEvent.printedDiagnostic ∉ (hostRun b (some image) noFail).events) ∧
    (b < 0 → (hostRun b (some image) devFail).result = .crashedUncaught) := by
  constructor
  · intro hb
    have h1 : (hostRun b (some image) noFail).events = successEvents := by
      simp only [hostRun, if_neg (not_lt.mpr hb)]
      rw [if_neg (by decide : ¬ opSeq.any noFail = true)]
    rw [h1]
    exact ⟨by decide, by decide⟩
  · intro hb
    simp only [hostRun, if_pos hb]

theorem C8_amended_witness :
    HostEvent.deviceOp (.dispatch .int_hist) ∈ (hostRun 300 (some [5]) noFail).events ∧
    HostEvent.printedDiagnostic ∉ (hostRun 300 (some [5]) noFail).events :=
  (C8_amended_no_bin_check 300 [5] noFail).1 (by decide)

/-- C9: every run in which a stage fails — image load failure, or any
failing device operation (program build, transfer, dispatch or
read-back) reached after a non-negative bin count was accepted — ends
with the catch handler's diagnostic and no displayed output image; no
partial output is ever shown. -/
theorem C9_failure_no_output (b : Int) (load : Option (List Nat))
    (devFail : DeviceOp → Bool)
    (hfail : load = none ∨ (0 ≤ b ∧ load ≠ none ∧ opSeq.any devFail = true)) :
    (hostRun b load devFail).result = .errorReported ∧
    HostEvent.displayedOutput ∉ (hostRun b load devFail).events ∧
    HostEvent.printedDiagnostic ∈ (hostRun b load devFail).events := by
  rcases hfail with rfl | ⟨hb, hsome, hany⟩
  · refine ⟨rfl, ?_, ?_⟩
    · show HostEvent.displayedOutput ∉ ([.readBinCount, .printedDiagnostic] : List HostEvent)
      decide
    · show HostEvent.printedDiagnostic ∈ ([.readBinCount, .printedDiagnostic] : List HostEvent)
      decide
  · obtain ⟨image, rfl⟩ := Option.ne_none_iff_exists'.mp hsome
    have h1 : hostRun b (some image) devFail = ⟨failEvents devFail, .errorReported⟩ := by
      simp only [hostRun, if_neg (not_lt.mpr hb)]
      rw [if_pos hany]
    rw [h1]
    refine ⟨rfl, ?_, ?_⟩
    · simp [failEvents]
    · simp [failEvents]

theorem C9_witness :
    (hostRun 256 (some [0]) failBuild).result = .errorReported ∧
    HostEvent.displayedOutput ∉ (hostRun 256 (some [0]) failBuild).events ∧
    HostEvent.printedDiagnostic ∈ (hostRun 256 (some [0]) failBuild).events :=
  C9_failure_no_output 256 (some [0]) failBuild
    (Or.inr ⟨by decide, by decide, by decide⟩)

/-- C10: the printed "Kernel execution time [ns]" is the duration of
only the final `back_project` dispatch, because every kernel enqueue
overwrites the single `event` variable; the printed "Memory transfer"
figure is four times that same kernel duration rather than the duration
of any memory transfer, and the write events `eventB`, `eventC`,
`eventD` are never queried. -/
theorem C10_profiling_defect (dur : DeviceOp → Nat) :
    finalEventOp .ev = some (.dispatch .back_project) ∧
    printedKernelTime dur = dur (.dispatch .back_project) ∧
    printedMemTransfer dur = 4 * dur (.dispatch .back_project) ∧
    EvVar.evB ∉ queriedEventVars ∧ EvVar.evC ∉ queriedEventVars ∧
    EvVar.evD ∉ queriedEventVars := by
  have hf : finalEventOp .ev = some (.dispatch .back_project) := by decide
  refine ⟨hf, ?_, ?_, by decide, by decide, by decide⟩
  · rw [printedKernelTime, hf]
    rfl
  · rw [printedMemTransfer, hf]
    show dur _ + dur _ + dur _ + dur _ = 4 * dur _
    ring

end Tutorial2
